import Mathlib

/-!
Verification of the demucs helper scripts
(`scripts/extract_bass_drums_from_youtube.py` and
`scripts/yt_download_and_trim/yt_dt.py`) against their natural-language
specification.  Python strings are embedded as `List Char`, Python integers
as `ℤ`, audio buffers as lists of integer samples (one entry per
millisecond cell, so a buffer's duration in milliseconds is its length).
-/

set_option autoImplicit false

namespace Demucs

/-- A Python string, embedded as its list of characters. -/
abbrev PyStr := List Char

/-- The error kinds named by the specification (§7).  `InvalidIntLiteral`
models the `ValueError` raised by Python's `int()` on a malformed literal,
which is distinct from the explicit `InvalidTimeFormat` raise. -/
inductive Err where
  | InvalidTimeFormat (s : PyStr)
  | InvalidIntLiteral (s : PyStr)
  | NoMatchingFile (title : PyStr)
  | DegenerateSignal
  | StartExceedsDuration (startSeconds durationSeconds : ℤ)
  | EmptyOrInvertedRange
  deriving DecidableEq, Repr

deriving instance DecidableEq for Except

/-! TimeSpec Parser (`yt_dt.py`, `parse_time_to_seconds`, lines 46–63) -/

/-- Python `str.split(sep)` for a single-character separator: always returns
at least one (possibly empty) part. -/
def splitOnChar (sep : Char) : PyStr → List PyStr
  | [] => [[]]
  | c :: cs =>
    match splitOnChar sep cs with
    | [] => [[c]]
    | h :: t => if c = sep then [] :: h :: t else (c :: h) :: t

/-- Value of a non-empty run of decimal digits; `none` if empty or if a
non-digit occurs. -/
def digitsVal : PyStr → Option ℕ
  | [] => none
  | [c] => if c.isDigit then some (c.toNat - 48) else none
  | c :: cs =>
    if c.isDigit then
      (digitsVal cs).map (fun n => (c.toNat - 48) * 10 ^ cs.length + n)
    else none

/-- Python's `int()` on the forms that occur in this pipeline: an optional
sign followed by decimal digits.  (Python additionally strips surrounding
whitespace and allows `_` separators; no claim exercises those forms.) -/
def pyInt? (s : PyStr) : Option ℤ :=
  match s with
  | '-' :: rest => (digitsVal rest).map (fun n => -(n : ℤ))
  | '+' :: rest => (digitsVal rest).map (fun n => (n : ℤ))
  | _ => (digitsVal s).map (fun n => (n : ℤ))

/-- Sequence one `int()` conversion, propagating its `ValueError`. -/
def int1 (a : PyStr) (k : ℤ → Except Err ℤ) : Except Err ℤ :=
  match pyInt? a with
  | some n => k n
  | none => .error (.InvalidIntLiteral a)

/-- Embeds `parse_time_to_seconds` (yt_dt.py lines 46–63): split on `:`;
1 part `SS`, 2 parts `MM:SS`, 3 parts `HH:MM:SS`, otherwise raise
`ValueError("Invalid time format: …")`. -/
def parse_time_to_seconds (s : PyStr) : Except Err ℤ :=
  match splitOnChar ':' s with
  | [a] => int1 a fun n => .ok n
  | [a, b] => int1 a fun m => int1 b fun n => .ok (m * 60 + n)
  | [a, b, c] =>
      int1 a fun h => int1 b fun m => int1 c fun n =>
        .ok (h * 3600 + m * 60 + n)
  | _ => .error (.InvalidTimeFormat s)

/-! Filename Sanitizer
(`extract_bass_drums_from_youtube.py`, `SPECIAL_CHARS` lines 17–20 and the
`re.sub` calls at lines 102–103) -/

/-- Membership in the regex character class
`[<>:"/\\|?*\x00-\x1F•⧸？]`. -/
def isSpecialChar (c : Char) : Bool :=
  c = '<' || c = '>' || c = ':' || c = Char.ofNat 34 || c = '/' ||
    c = Char.ofNat 92 || c = '|' || c = '?' || c = '*' ||
    c.toNat ≤ 0x1F || c = Char.ofNat 0x2022 || c = Char.ofNat 0x29F8 ||
    c = Char.ofNat 0xFF1F

/-- Embeds `re.sub(SPECIAL_CHARS, "", s)`: the pattern matches exactly one
character at a time and each match is replaced by the empty string, so the
substitution is a character filter. -/
def sanitize (s : PyStr) : PyStr := s.filter (fun c => !isSpecialChar c)

/-! Title Normalizer (`normalize_visually`, extract script lines 25–36) -/

/-- The characters Python's `str.isspace()` accepts (the set `str.strip()`
removes). -/
def pyIsSpace (c : Char) : Bool :=
  c = ' ' || c = Char.ofNat 9 || c = Char.ofNat 10 || c = Char.ofNat 11 ||
    c = Char.ofNat 12 || c = Char.ofNat 13 ||
    (0x1C ≤ c.toNat && c.toNat ≤ 0x1F) || c = Char.ofNat 0x85 ||
    c = Char.ofNat 0xA0 || c = Char.ofNat 0x1680 ||
    (0x2000 ≤ c.toNat && c.toNat ≤ 0x200A) || c = Char.ofNat 0x2028 ||
    c = Char.ofNat 0x2029 || c = Char.ofNat 0x202F || c = Char.ofNat 0x205F ||
    c = Char.ofNat 0x3000

/-- Python `str.strip()`: drop leading and trailing whitespace. -/
def pyStrip (s : PyStr) : PyStr :=
  ((s.dropWhile pyIsSpace).reverse.dropWhile pyIsSpace).reverse

/-- The seven chained single-character `str.replace` calls of
`normalize_visually` (lines 28–34).  The replaced characters are pairwise
distinct and no replacement output is a later replacement's input, so the
chain is this single character map. -/
def replChar (c : Char) : Char :=
  if c = '⧸' then '/'
  else if c = '⁄' then '/'
  else if c = Char.ofNat 0xA0 then ' '
  else if c = '“' then Char.ofNat 34
  else if c = '”' then Char.ofNat 34
  else if c = '‘' then Char.ofNat 39
  else if c = '’' then Char.ofNat 39
  else c

/-- Embeds `normalize_visually` (lines 25–36): NFKC normalization, then the
substitution table, then `strip()`.  Modelled from the spec: NFKC
(`unicodedata.normalize("NFKC", ·)`) is Python-library code outside this
repository, so it is a parameter; theorems assume of it only properties the
Unicode standard guarantees (idempotence, stability of already-normalized
strings under the ASCII-output substitutions and under edge trimming). -/
def normalize_visually (nfkc : PyStr → PyStr) (s : PyStr) : PyStr :=
  pyStrip ((nfkc s).map replChar)

/-! Case folding and substring tests shared by the two resolvers.  Python's
`str.lower()` is embedded as an ASCII character map (the full Unicode case
table is interpreter data; every claim exercises ASCII only). -/

/-- Python `str.lower()`, ASCII fragment. -/
def pyLower (s : PyStr) : PyStr := s.map Char.toLower

/-- Whether `s` starts with `pat` (helper for the substring test). -/
def startsWithChars : PyStr → PyStr → Bool
  | _, [] => true
  | [], _ :: _ => false
  | c :: cs, d :: ds => c = d && startsWithChars cs ds

/-- Python's `needle in hay` on strings: contiguous-substring containment
(the empty needle is contained in everything). -/
def containsChars : PyStr → PyStr → Bool
  | [], needle => needle.isEmpty
  | c :: cs, needle => startsWithChars (c :: cs) needle || containsChars cs needle

/-- Python `str.endswith` (applied to already-lowercased strings in the
source). -/
def endsWithChars (s suffix : PyStr) : Bool :=
  startsWithChars s.reverse suffix.reverse

/-! Strict File Resolver (extract script lines 82–99: the
`matching_file_path` loop over `os.listdir(".")`). -/

/-- The `target_ext = ".mp3"` constant (line 82). -/
def targetExt : PyStr := ['.', 'm', 'p', '3']

/-- The per-entry test of the loop body (lines 89–96): keep only names whose
lower-cased form ends in `.mp3`, then ask whether the lower-cased normalized
title occurs in the entry's lower-cased `normalize_visually` form. -/
def strictMatch (nfkc : PyStr → PyStr) (normalizedTitle f : PyStr) : Bool :=
  endsWithChars (pyLower f) targetExt &&
    containsChars (pyLower (normalize_visually nfkc f)) (pyLower normalizedTitle)

/-- Embeds the resolver loop plus the `FileNotFoundError` raise at line 99:
first entry in listing order passing `strictMatch`, else a
`NoMatchingFile`-style failure naming the normalized title. -/
def matching_file_path (nfkc : PyStr → PyStr) (normalizedTitle : PyStr)
    (entries : List PyStr) : Except Err PyStr :=
  match entries.find? (strictMatch nfkc normalizedTitle) with
  | some f => .ok f
  | none => .error (.NoMatchingFile normalizedTitle)

/-! Variant File Resolver (`yt_dt.py`, `download_youtube_audio`
lines 102–128).  The glob result is a list of file records; `stem` is the
filename without its extension (what `file.stem` yields) and `mtime` the
modification time (`file.stat().st_mtime`).  `clean_title` is computed
upstream (lines 96–97) by two regex passes and reaches this code as data, so
it is a parameter here. -/

structure MP3File where
  path : PyStr
  stem : PyStr
  mtime : ℕ
  deriving DecidableEq, Repr

/-- First-pass test (line 110): cleaned title contained in the stem,
case-insensitively. -/
def cleanTitleMatch (cleanTitle : PyStr) (f : MP3File) : Bool :=
  containsChars (pyLower f.stem) (pyLower cleanTitle)

/-- Python `str.split()` with no argument: split on whitespace runs,
discarding empty pieces. -/
def pySplitWs (s : PyStr) : List PyStr :=
  (s.splitOnP pyIsSpace).filter (fun w => ¬w.isEmpty)

/-- The word list of line 114: `title.lower().split()`. -/
def titleWords (title : PyStr) : List PyStr := pySplitWs (pyLower title)

/-- Count of title words occurring in a lower-cased stem (line 118). -/
def wordMatches (ws : List PyStr) (stemLower : PyStr) : ℕ :=
  (ws.filter (fun w => containsChars stemLower w)).length

/-- Second-pass test (lines 118–119): at least 70 % of the title words occur
in the stem.  The source compares against the float `len(title_words)*0.7`;
for any word count below 10¹⁵ that comparison on integers coincides with the
exact rational one, written here as `10 * matches ≥ 7 * count`. -/
def wordCoverageMatch (ws : List PyStr) (f : MP3File) : Bool :=
  10 * wordMatches ws (pyLower f.stem) ≥ 7 * ws.length

/-- One comparison step of Python `max(..., key=mtime)`: keep the current
best on ties, so the first maximal element wins. -/
def mtimeStep (best g : MP3File) : MP3File :=
  if g.mtime > best.mtime then g else best

/-- Python `max(files, key=mtime)` under the `if mp3_files:` guard
(lines 123–125): first element of maximal modification time. -/
def newestFile : List MP3File → Option MP3File
  | [] => none
  | f :: fs => some (fs.foldl mtimeStep f)

/-- The `expected_filename` string of line 103:
`f"{output_dir}/{clean_title}.mp3"`. -/
def expectedFilename (outputDir cleanTitle : PyStr) : PyStr :=
  outputDir ++ '/' :: cleanTitle ++ targetExt

/-- Embeds the fallback chain of `download_youtube_audio` (lines 106–128):
substring match on the cleaned title, then ≥70 % word coverage, then the
most recently modified `.mp3`, then the constructed expected filename. -/
def download_find (cleanTitle title outputDir : PyStr)
    (mp3Files : List MP3File) : PyStr :=
  match mp3Files.find? (cleanTitleMatch cleanTitle) with
  | some f => f.path
  | none =>
    match mp3Files.find? (wordCoverageMatch (titleWords title)) with
    | some f => f.path
    | none =>
      match newestFile mp3Files with
      | some f => f.path
      | none => expectedFilename outputDir cleanTitle

/-! Trim Engine (`yt_dt.py`, `trim_audio` lines 134–167).  A buffer is a
list of millisecond cells, so `len(audio)` — pydub's duration in
milliseconds — is the list length. -/

/-- Modelled from the spec: pydub's millisecond slicing `audio[a:b]` is
collaborator code; per §4.7 it yields the sub-buffer covering `[a, b)`.
(Embedded for `0 ≤ a`, the region the validated code reaches; Python's
negative-index wrapping is never exercised.) -/
def pySlice (l : List ℤ) (a b : ℤ) : List ℤ :=
  (l.take b.toNat).drop a.toNat

/-- Embeds `trim_audio` (lines 138–167): seconds are converted to
milliseconds; a start at or past the end is a hard `ValueError` naming the
start (in seconds) and `len(audio)//1000`; an end past the buffer is clamped
with a printed warning (the advisory, returned here as the `Bool`); an empty
or inverted range after clamping is a hard `ValueError`; otherwise the slice
is returned. -/
def trim_audio (audio : List ℤ) (startSeconds endSeconds : ℤ) :
    Except Err (List ℤ × Bool) :=
  let dur : ℤ := audio.length
  let startMs : ℤ := startSeconds * 1000
  let endMs : ℤ := endSeconds * 1000
  if startMs ≥ dur then
    .error (.StartExceedsDuration startSeconds (dur / 1000))
  else if endMs > dur then
    -- the source mutates end_ms to len(audio) here and prints the warning;
    -- the advisory flag in the result records that print
    if startMs ≥ dur then .error .EmptyOrInvertedRange
    else .ok (pySlice audio startMs dur, true)
  else if startMs ≥ endMs then .error .EmptyOrInvertedRange
  else .ok (pySlice audio startMs endMs, false)

/-! Overlay/Mix Engine (extract script line 130, `bass.overlay(drums)`). -/

/-- Standard 16-bit saturation. -/
def clip16 (x : ℤ) : ℤ := max (-32768) (min 32767 x)

/-- Whether a sample is representable in 16 bits. -/
def inRange16 (x : ℤ) : Bool := decide (-32768 ≤ x) && decide (x ≤ 32767)

/-- Pad a buffer with trailing silence up to `n` cells. -/
def padTo (n : ℕ) (l : List ℤ) : List ℤ := l ++ List.replicate (n - l.length) 0

/-- Modelled from the spec: `AudioSegment.overlay` is pydub collaborator
code; per §4.6 the output is the samplewise saturating sum of the two
buffers aligned at offset zero, the shorter treated as silence past its own
end, with duration the longer of the two. -/
def overlay (a b : List ℤ) : List ℤ :=
  List.zipWith (fun x y => clip16 (x + y))
    (padTo (max a.length b.length) a) (padTo (max a.length b.length) b)

/-! Loudness Normalizer (extract script lines 118–127).  The script reads
`bass.dBFS` / `drums.dBFS` and calls `apply_gain(target − dBFS)` with no
guard of any kind. -/

/-- Whether every sample is zero (an all-zero buffer is what pydub measures
as −∞ dBFS). -/
def isSilent (b : List ℤ) : Bool := b.all (fun x => x = 0)

/-- Modelled from the spec: pydub's `dBFS` measurement is collaborator code;
a silent buffer measures −∞ (here `none`), any other buffer some finite
level supplied by the measurement function `measure` (its exact value is a
logarithm and never matters to the claims, only its finiteness). -/
def dBFS (measure : List ℤ → ℚ) (b : List ℤ) : Option ℚ :=
  if isSilent b then none else some (measure b)

/-- The gain expression of lines 126–127, `target − current`, in extended
arithmetic: a finite current loudness gives the finite uniform gain
`target − current`; a −∞ current loudness gives a non-finite (`none`)
gain, since `target − (−∞) = +∞`. -/
def gainFor (target : ℚ) (current : Option ℚ) : Option ℚ :=
  current.map (fun c => target - c)

/-- Embeds lines 121–127: the script computes `target − dBFS` and hands it
straight to `apply_gain`.  There is no error branch — in particular no
`DegenerateSignal` failure — so the result is always `ok`, carrying the
(possibly non-finite) gain that reaches the gain stage. -/
def loudness_normalize_gain (measure : List ℤ → ℚ) (target : ℚ)
    (b : List ℤ) : Except Err (Option ℚ) :=
  .ok (gainFor target (dBFS measure b))

/-! Helper lemmas. -/

/-- `List.find?` returns the first element satisfying the predicate. -/
theorem find?_first {α : Type} (p : α → Bool) (pre post : List α) (f : α)
    (hf : p f = true) (hpre : ∀ g ∈ pre, p g = false) :
    (pre ++ f :: post).find? p = some f := by
  induction pre with
  | nil => rw [List.nil_append]; exact List.find?_cons_of_pos _ hf
  | cons a t ih =>
    have ha : p a = false := hpre a (List.mem_cons_self a t)
    rw [List.cons_append, List.find?_cons_of_neg _ (by simp [ha])]
    exact ih (fun g hg => hpre g (List.mem_cons_of_mem _ hg))

end Demucs

namespace Demucs

/-- **C4** (confirmed): a time string splitting on `:` into one, two or
three parts, each a non-negative integer literal, parses to `SS`,
`MM*60+SS`, `HH*3600+MM*60+SS` respectively; any other number of
colon-separated parts fails with `InvalidTimeFormat` naming the offending
string. -/
theorem parse_time_forms (s a b c : PyStr) (x y z : ℤ) :
    (splitOnChar ':' s = [a] → pyInt? a = some x → 0 ≤ x →
        parse_time_to_seconds s = .ok x)
  ∧ (splitOnChar ':' s = [a, b] → pyInt? a = some x → pyInt? b = some y →
        0 ≤ x → 0 ≤ y → parse_time_to_seconds s = .ok (x * 60 + y))
  ∧ (splitOnChar ':' s = [a, b, c] → pyInt? a = some x → pyInt? b = some y →
        pyInt? c = some z → 0 ≤ x → 0 ≤ y → 0 ≤ z →
        parse_time_to_seconds s = .ok (x * 3600 + y * 60 + z))
  ∧ (4 ≤ (splitOnChar ':' s).length →
        parse_time_to_seconds s = .error (.InvalidTimeFormat s)) := by
  refine ⟨?_, ?_, ?_, ?_⟩
  · intro h ha _
    simp [parse_time_to_seconds, h, int1, ha]
  · intro h ha hb _ _
    simp [parse_time_to_seconds, h, int1, ha, hb]
  · intro h ha hb hc _ _ _
    simp [parse_time_to_seconds, h, int1, ha, hb, hc]
  · intro h
    rcases hsp : splitOnChar ':' s with _ | ⟨p, _ | ⟨q, _ | ⟨r, _ | ⟨t, rest⟩⟩⟩⟩ <;>
        simp only [hsp, List.length_nil, List.length_cons] at h <;>
      first
        | omega
        | simp [parse_time_to_seconds, hsp]

/-- Witness for C4, at the spec's example `"1:01:30" → 3690`. -/
theorem parse_time_forms_witness :
    parse_time_to_seconds ("1:01:30".data) = .ok 3690 := by
  have h :=
    (parse_time_forms ("1:01:30".data) "1".data ("01".data) "30".data 1 1 30).2.2.1
      (by decide) (by decide) (by decide) (by decide) (by decide) (by decide)
      (by decide)
  exact h.trans (by norm_num)

/-- **C9** (confirmed): the parser performs no sign or range validation on
the individual components — any one-to-three-part input whose parts parse as
Python integers (possibly negative, possibly ≥ 60) yields the weighted sum
without error; in particular `"2:75"` gives 195 and `"1:-30"` gives 30. -/
theorem parse_time_unvalidated_components (s a b c : PyStr) (x y z : ℤ) :
    (splitOnChar ':' s = [a] → pyInt? a = some x →
        parse_time_to_seconds s = .ok x)
  ∧ (splitOnChar ':' s = [a, b] → pyInt? a = some x → pyInt? b = some y →
        parse_time_to_seconds s = .ok (x * 60 + y))
  ∧ (splitOnChar ':' s = [a, b, c] → pyInt? a = some x → pyInt? b = some y →
        pyInt? c = some z →
        parse_time_to_seconds s = .ok (x * 3600 + y * 60 + z))
  ∧ parse_time_to_seconds ("2:75".data) = .ok 195
  ∧ parse_time_to_seconds ("1:-30".data) = .ok 30 := by
  refine ⟨?_, ?_, ?_, by decide, by decide⟩
  · intro h ha
    simp [parse_time_to_seconds, h, int1, ha]
  · intro h ha hb
    simp [parse_time_to_seconds, h, int1, ha, hb]
  · intro h ha hb hc
    simp [parse_time_to_seconds, h, int1, ha, hb, hc]

/-- Witness for C9, at the negative-component input `"1:-30"`. -/
theorem parse_time_unvalidated_components_witness :
    parse_time_to_seconds ("1:-30".data) = .ok 30 := by
  have h :=
    (parse_time_unvalidated_components ("1:-30".data) "1".data ("-30".data) []
        1 (-30) 0).2.1 (by decide) (by decide) (by decide)
  exact h.trans (by norm_num)

/-- **C7** (confirmed): for every input string the sanitizer's output
contains no character of the disallowed set, the output is a subsequence of
the input (no other transformation of the remaining characters), and
sanitizing is idempotent. -/
theorem sanitize_clean_idempotent (s : PyStr) :
    (sanitize s).all (fun c => !isSpecialChar c) = true
  ∧ (sanitize s).Sublist s
  ∧ sanitize (sanitize s) = sanitize s := by
  refine ⟨?_, List.filter_sublist s, ?_⟩
  · simp only [sanitize, List.all_eq_true]
    intro c hc
    exact (List.mem_filter.1 hc).2
  · simp [sanitize, List.filter_filter]

/-- The substitution table is idempotent on characters: every output
character is outside the table's domain. -/
theorem replChar_idem (c : Char) : replChar (replChar c) = replChar c := by
  by_cases h1 : c = '⧸'
  · subst h1; decide
  by_cases h2 : c = '⁄'
  · subst h2; decide
  by_cases h3 : c = Char.ofNat 0xA0
  · subst h3; decide
  by_cases h4 : c = '“'
  · subst h4; decide
  by_cases h5 : c = '”'
  · subst h5; decide
  by_cases h6 : c = '‘'
  · subst h6; decide
  by_cases h7 : c = '’'
  · subst h7; decide
  have hc : replChar c = c := by
    unfold replChar
    simp [h1, h2, h3, h4, h5, h6, h7]
  rw [hc, hc]

/-- Mapping a function that fixes every element of a list is the identity on
that list. -/
theorem map_fix {α : Type} (f : α → α) (l : List α)
    (h : ∀ c ∈ l, f c = c) : l.map f = l := by
  induction l with
  | nil => rfl
  | cons a t ih =>
    simp only [List.map_cons, h a (List.mem_cons_self a t)]
    rw [ih (fun c hc => h c (List.mem_cons_of_mem _ hc))]

/-- Dropping a prefix by a predicate twice is the same as once. -/
theorem dropWhile_idem {α : Type} (p : α → Bool) (l : List α) :
    (l.dropWhile p).dropWhile p = l.dropWhile p := by
  induction l with
  | nil => rfl
  | cons a t ih =>
    by_cases h : p a
    · simp [List.dropWhile_cons, h, ih]
    · simp [List.dropWhile_cons, h]

/-- A list `B` that occurs as the left factor of a `dropWhile`-fixed list is
itself `dropWhile`-fixed. -/
theorem dropWhile_fix_of_append {α : Type} (p : α → Bool) (B tail : List α)
    (hA : (B ++ tail).dropWhile p = B ++ tail) : B.dropWhile p = B := by
  cases B with
  | nil => rfl
  | cons b B2 =>
    have hb : p b = false := by
      by_contra hb
      have hb' : p b = true := by simpa using hb
      rw [List.cons_append, List.dropWhile_cons_of_pos hb'] at hA
      have hlen := congrArg List.length hA
      have hle : ((B2 ++ tail).dropWhile p).length ≤ (B2 ++ tail).length :=
        (List.dropWhile_sublist _).length_le
      simp only [List.length_cons] at hlen
      omega
    simp [List.dropWhile_cons, hb]

/-- `str.strip()` is idempotent. -/
theorem pyStrip_idem (u : PyStr) : pyStrip (pyStrip u) = pyStrip u := by
  unfold pyStrip
  set A := u.dropWhile pyIsSpace with hA
  set R := A.reverse.dropWhile pyIsSpace with hR
  have hAfix : A.dropWhile pyIsSpace = A := by rw [hA]; exact dropWhile_idem _ u
  have hsplit : A = R.reverse ++ (A.reverse.takeWhile pyIsSpace).reverse := by
    have h0 : A.reverse.takeWhile pyIsSpace ++ R = A.reverse := by
      rw [hR]; exact List.takeWhile_append_dropWhile pyIsSpace A.reverse
    calc A = A.reverse.reverse := (List.reverse_reverse A).symm
    _ = (A.reverse.takeWhile pyIsSpace ++ R).reverse := by rw [h0]
    _ = R.reverse ++ (A.reverse.takeWhile pyIsSpace).reverse :=
        List.reverse_append _ _
  have hBfix : R.reverse.dropWhile pyIsSpace = R.reverse := by
    refine dropWhile_fix_of_append pyIsSpace R.reverse
      ((A.reverse.takeWhile pyIsSpace).reverse) ?_
    rw [← hsplit]; exact hAfix
  have hRfix : R.reverse.reverse.dropWhile pyIsSpace = R.reverse.reverse := by
    rw [List.reverse_reverse, hR]
    exact dropWhile_idem _ A.reverse
  rw [hBfix, hRfix, List.reverse_reverse]

/-- Every character of `pyStrip u` is a character of `u`. -/
theorem mem_of_mem_pyStrip {c : Char} {u : PyStr} (h : c ∈ pyStrip u) :
    c ∈ u := by
  unfold pyStrip at h
  rw [List.mem_reverse] at h
  have h1 : c ∈ (u.dropWhile pyIsSpace).reverse :=
    (List.dropWhile_sublist _).subset h
  rw [List.mem_reverse] at h1
  exact (List.dropWhile_sublist _).subset h1

/-- **C8** (confirmed): the Title Normalizer — NFKC, then the fixed
substitution table, then whitespace trim — is idempotent for every input
string, for any NFKC collaborator satisfying the Unicode-standard
guarantees: idempotence, and stability of already-normalized strings under
the ASCII-output substitutions and under edge trimming.  (Determinism holds
by construction: the normalizer is a function of its input.) -/
theorem normalize_visually_idem (nfkc : PyStr → PyStr)
    (hidem : ∀ t, nfkc (nfkc t) = nfkc t)
    (hmap : ∀ t, nfkc t = t → nfkc (t.map replChar) = t.map replChar)
    (hstrip : ∀ t, nfkc t = t → nfkc (pyStrip t) = pyStrip t)
    (s : PyStr) :
    normalize_visually nfkc (normalize_visually nfkc s)
      = normalize_visually nfkc s := by
  have ht : nfkc (nfkc s) = nfkc s := hidem s
  have hu : nfkc ((nfkc s).map replChar) = (nfkc s).map replChar := hmap _ ht
  have hv : nfkc (pyStrip ((nfkc s).map replChar))
      = pyStrip ((nfkc s).map replChar) := hstrip _ hu
  show pyStrip ((nfkc (pyStrip ((nfkc s).map replChar))).map replChar) = _
  rw [hv]
  have hfix : ∀ c ∈ pyStrip ((nfkc s).map replChar), replChar c = c := by
    intro c hc
    obtain ⟨d, _, rfl⟩ := List.mem_map.1 (mem_of_mem_pyStrip hc)
    exact replChar_idem d
  rw [map_fix _ _ hfix]
  exact pyStrip_idem _

/-- Witness for C8: concrete idempotence on a string with smart quotes, a
fancy slash, a non-breaking space and padding, with the identity standing in
for the NFKC collaborator. -/
theorem normalize_visually_idem_witness :
    normalize_visually id (normalize_visually id (" “Mix”⧸Live ".data))
      = normalize_visually id (" “Mix”⧸Live ".data) :=
  normalize_visually_idem id (fun _ => rfl) (fun _ _ => rfl) (fun _ _ => rfl)
    (" “Mix”⧸Live ".data)

/-- **C5** (confirmed): the strict resolver returns the first directory
entry, in listing order, whose lower-cased name ends with the expected
extension and whose normalized lower-cased form contains the normalized
lower-cased title as a substring; if no entry satisfies both conditions it
fails with `NoMatchingFile` carrying the attempted normalized title — it
never returns a guessed name. -/
theorem matching_file_path_spec (nfkc : PyStr → PyStr) (title : PyStr)
    (entries : List PyStr) :
    (∀ f pre post, entries = pre ++ f :: post →
        strictMatch nfkc title f = true →
        (∀ g ∈ pre, strictMatch nfkc title g = false) →
        matching_file_path nfkc title entries = .ok f)
  ∧ ((∀ f ∈ entries, strictMatch nfkc title f = false) →
        matching_file_path nfkc title entries
          = .error (.NoMatchingFile title)) := by
  constructor
  · intro f pre post hsplit hf hpre
    subst hsplit
    unfold matching_file_path
    rw [find?_first _ pre post f hf hpre]
  · intro hall
    unfold matching_file_path
    rw [List.find?_eq_none.2 (fun a ha => by simp [hall a ha])]

/-- Witness for C5, at the spec's example directory. -/
theorem matching_file_path_spec_witness :
    matching_file_path id ("my song (live)".data)
      [("My Song (Live).mp3".data), ("other.mp3".data)]
      = .ok ("My Song (Live).mp3".data) :=
  (matching_file_path_spec id ("my song (live)".data)
      [("My Song (Live).mp3".data), ("other.mp3".data)]).1
    ("My Song (Live).mp3".data) [] [("other.mp3".data)] rfl (by decide)
    (fun g hg => absurd hg (List.not_mem_nil g))

/-- The first maximal element returned by `newestFile` is a member of the
list and no member has a larger modification time. -/
theorem newestFile_spec (f : MP3File) (fs : List MP3File) :
    ∃ m, newestFile (f :: fs) = some m ∧ m ∈ f :: fs ∧
      ∀ g ∈ f :: fs, g.mtime ≤ m.mtime := by
  suffices h : ∀ (l : List MP3File) (a : MP3File),
      (l.foldl mtimeStep a = a ∨ l.foldl mtimeStep a ∈ l)
      ∧ a.mtime ≤ (l.foldl mtimeStep a).mtime
      ∧ ∀ g ∈ l, g.mtime ≤ (l.foldl mtimeStep a).mtime by
    refine ⟨fs.foldl mtimeStep f, rfl, ?_, ?_⟩
    · rcases (h fs f).1 with h1 | h1
      · rw [h1]; exact List.mem_cons_self f fs
      · exact List.mem_cons_of_mem f h1
    · intro g hg
      rcases List.mem_cons.1 hg with rfl | hg'
      · exact (h fs g).2.1
      · exact (h fs f).2.2 g hg'
  intro l
  induction l with
  | nil => exact fun a => ⟨Or.inl rfl, le_refl _, fun g hg => absurd hg (List.not_mem_nil g)⟩
  | cons b t ih =>
    intro a
    simp only [List.foldl_cons, mtimeStep]
    by_cases hb : b.mtime > a.mtime
    · simp only [if_pos hb]
      refine ⟨?_, ?_, ?_⟩
      · rcases (ih b).1 with h1 | h1
        · exact Or.inr (by rw [h1]; exact List.mem_cons_self b t)
        · exact Or.inr (List.mem_cons_of_mem b h1)
      · exact le_of_lt (lt_of_lt_of_le hb (ih b).2.1)
      · intro g hg
        rcases List.mem_cons.1 hg with rfl | hg'
        · exact (ih g).2.1
        · exact (ih b).2.2 g hg'
    · simp only [if_neg hb]
      refine ⟨?_, (ih a).2.1, ?_⟩
      · rcases (ih a).1 with h1 | h1
        · exact Or.inl h1
        · exact Or.inr (List.mem_cons_of_mem b h1)
      · intro g hg
        rcases List.mem_cons.1 hg with rfl | hg'
        · exact le_trans (le_of_not_lt hb) (ih a).2.1
        · exact (ih a).2.2 g hg'

/-- **C6** (confirmed): the variant resolver applies its fallback chain in
order — the first candidate whose stem contains the cleaned title
case-insensitively; otherwise the first candidate in which at least 70 % of
the whitespace-delimited title words occur; otherwise the most recently
modified `.mp3`; and, when the directory holds no `.mp3` at all, the
constructed expected-filename string. -/
theorem download_find_fallback_chain (cleanTitle title outputDir : PyStr)
    (files : List MP3File) :
    (∀ f pre post, files = pre ++ f :: post →
        cleanTitleMatch cleanTitle f = true →
        (∀ g ∈ pre, cleanTitleMatch cleanTitle g = false) →
        download_find cleanTitle title outputDir files = f.path)
  ∧ ((∀ g ∈ files, cleanTitleMatch cleanTitle g = false) →
      ∀ f pre post, files = pre ++ f :: post →
        wordCoverageMatch (titleWords title) f = true →
        (∀ g ∈ pre, wordCoverageMatch (titleWords title) g = false) →
        download_find cleanTitle title outputDir files = f.path)
  ∧ ((∀ g ∈ files, cleanTitleMatch cleanTitle g = false) →
      (∀ g ∈ files, wordCoverageMatch (titleWords title) g = false) →
      files ≠ [] →
      ∃ m ∈ files, download_find cleanTitle title outputDir files = m.path ∧
        ∀ g ∈ files, g.mtime ≤ m.mtime)
  ∧ (files = [] →
      download_find cleanTitle title outputDir files
        = expectedFilename outputDir cleanTitle) := by
  refine ⟨?_, ?_, ?_, ?_⟩
  · intro f pre post hsplit hf hpre
    subst hsplit
    unfold download_find
    rw [find?_first _ pre post f hf hpre]
  · intro hall f pre post hsplit hf hpre
    subst hsplit
    unfold download_find
    rw [List.find?_eq_none.2 (fun a ha => by simp [hall a ha]),
      find?_first _ pre post f hf hpre]
  · intro hall1 hall2 hne
    cases files with
    | nil => exact absurd rfl hne
    | cons f fs =>
      obtain ⟨m, hm, hmem, hmax⟩ := newestFile_spec f fs
      refine ⟨m, hmem, ?_, hmax⟩
      unfold download_find
      rw [List.find?_eq_none.2 (fun a ha => by simp [hall1 a ha]),
        List.find?_eq_none.2 (fun a ha => by simp [hall2 a ha]), hm]
  · intro h
    subst h
    rfl

/-- Witness for C6, at the empty directory (final fallback) and at a
one-entry directory resolved by the first pass. -/
theorem download_find_fallback_chain_witness :
    download_find ("song".data) ("song".data) ("temp".data) []
      = expectedFilename ("temp".data) ("song".data) :=
  (download_find_fallback_chain ("song".data) ("song".data) ("temp".data)
    []).2.2.2 rfl

/-- **C10** (confirmed): in the word-coverage step, a title whose
lower-cased whitespace split is empty makes the acceptance threshold 0, the
condition holds vacuously for every candidate, and the first candidate in
glob order is returned regardless of its name. -/
theorem word_coverage_empty_title (title : PyStr) (f : MP3File)
    (fs : List MP3File) :
    (∀ g, wordCoverageMatch ([] : List PyStr) g = true)
  ∧ (titleWords title = [] →
      (f :: fs).find? (wordCoverageMatch (titleWords title)) = some f) := by
  constructor
  · intro g
    simp [wordCoverageMatch, wordMatches]
  · intro h
    rw [h]
    exact List.find?_cons_of_pos _ (by simp [wordCoverageMatch, wordMatches])

/-- Witness for C10: an all-whitespace title accepts an arbitrarily-named
first candidate. -/
theorem word_coverage_empty_title_witness :
    (([⟨("a.mp3".data), ("a".data), 5⟩,
        ⟨("b.mp3".data), ("b".data), 9⟩] : List MP3File).find?
      (wordCoverageMatch (titleWords (" ".data))))
      = some ⟨("a.mp3".data), ("a".data), 5⟩ :=
  (word_coverage_empty_title (" ".data) ⟨("a.mp3".data), ("a".data), 5⟩
    [⟨("b.mp3".data), ("b".data), 9⟩]).2 (by decide)

/-- Length of a slice whose bounds have been validated. -/
theorem pySlice_length (l : List ℤ) (a b : ℤ) (h0 : 0 ≤ a) (hab : a ≤ b)
    (hb : b ≤ (l.length : ℤ)) :
    ((pySlice l a b).length : ℤ) = b - a := by
  unfold pySlice
  rw [List.length_drop, List.length_take]
  omega

/-- **C1** (confirmed): the Trim Engine validates in order — a start at or
past the buffer duration fails with `StartExceedsDuration` naming the start
and the duration; otherwise an end past the duration does not fail but is
clamped with the advisory raised; otherwise a start at or past the end
fails with `EmptyOrInvertedRange`; and every successful output's length is
`end_ms − start_ms` after clamping. -/
theorem trim_audio_validation (audio : List ℤ) (s e : ℤ) (hs : 0 ≤ s) :
    (s * 1000 ≥ (audio.length : ℤ) →
        trim_audio audio s e
          = .error (.StartExceedsDuration s ((audio.length : ℤ) / 1000)))
  ∧ (s * 1000 < (audio.length : ℤ) → e * 1000 > (audio.length : ℤ) →
        trim_audio audio s e
          = .ok (pySlice audio (s * 1000) ((audio.length : ℤ)), true)
        ∧ ((pySlice audio (s * 1000) ((audio.length : ℤ))).length : ℤ)
            = (audio.length : ℤ) - s * 1000)
  ∧ (s * 1000 < (audio.length : ℤ) → e * 1000 ≤ (audio.length : ℤ) →
      s * 1000 ≥ e * 1000 →
        trim_audio audio s e = .error .EmptyOrInvertedRange)
  ∧ (s * 1000 < (audio.length : ℤ) → e * 1000 ≤ (audio.length : ℤ) →
      s * 1000 < e * 1000 →
        trim_audio audio s e
          = .ok (pySlice audio (s * 1000) (e * 1000), false)
        ∧ ((pySlice audio (s * 1000) (e * 1000)).length : ℤ)
            = e * 1000 - s * 1000) := by
  refine ⟨?_, ?_, ?_, ?_⟩
  · intro h
    simp only [trim_audio]
    rw [if_pos h]
  · intro h1 h2
    have hns : ¬ s * 1000 ≥ (audio.length : ℤ) := by omega
    constructor
    · simp only [trim_audio]
      rw [if_neg hns, if_pos h2, if_neg hns]
    · exact pySlice_length audio _ _ (by omega) (by omega) (by omega)
  · intro h1 h2 h3
    have hns : ¬ s * 1000 ≥ (audio.length : ℤ) := by omega
    have hnc : ¬ e * 1000 > (audio.length : ℤ) := by omega
    simp only [trim_audio]
    rw [if_neg hns, if_neg hnc, if_pos h3]
  · intro h1 h2 h3
    have hns : ¬ s * 1000 ≥ (audio.length : ℤ) := by omega
    have hnc : ¬ e * 1000 > (audio.length : ℤ) := by omega
    have hne : ¬ s * 1000 ≥ e * 1000 := by omega
    constructor
    · simp only [trim_audio]
      rw [if_neg hns, if_neg hnc, if_neg hne]
    · exact pySlice_length audio _ _ (by omega) (by omega) (by omega)

/-- Witness for C1, exercising the clamp-and-advise branch on a 5 ms buffer
trimmed to (0 s, 1 s): success, advisory raised, full buffer returned. -/
theorem trim_audio_validation_witness :
    trim_audio (List.replicate 5 (0 : ℤ)) 0 1
      = .ok (List.replicate 5 (0 : ℤ), true) := by
  have h :=
    ((trim_audio_validation (List.replicate 5 (0 : ℤ)) 0 1 (by decide)).2.1
      (by decide) (by decide)).1
  exact h.trans (by decide)

/-- Padding never shortens: the padded length is the target when the target
dominates. -/
theorem padTo_length (n : ℕ) (l : List ℤ) (h : l.length ≤ n) :
    (padTo n l).length = n := by
  simp only [padTo, List.length_append, List.length_replicate]
  omega

/-- Saturating addition of silence is the identity on in-range samples. -/
theorem zipWith_clip_zero (a : List ℤ) (h : a.all inRange16 = true) :
    List.zipWith (fun x y => clip16 (x + y)) a (List.replicate a.length 0)
      = a := by
  induction a with
  | nil => rfl
  | cons x xs ih =>
    rw [List.all_cons, Bool.and_eq_true] at h
    have hx : -32768 ≤ x ∧ x ≤ 32767 := by
      have := h.1
      simp only [inRange16, Bool.and_eq_true, decide_eq_true_eq] at this
      exact this
    simp only [List.length_cons, List.replicate_succ, List.zipWith_cons_cons]
    rw [ih h.2]
    have hcl : clip16 (x + 0) = x := by
      simp only [clip16, add_zero]
      omega
    rw [hcl]

/-- **C3** (confirmed): the overlay's duration is the longer of the two
inputs' durations, swapping the inputs leaves the output duration unchanged,
and overlaying with a zero-length buffer returns the original (in-range)
buffer unchanged. -/
theorem overlay_duration (a b : List ℤ) :
    (overlay a b).length = max a.length b.length
  ∧ (overlay a b).length = (overlay b a).length
  ∧ (a.all inRange16 = true → overlay a [] = a) := by
  have hlen : ∀ x y : List ℤ, (overlay x y).length = max x.length y.length := by
    intro x y
    simp only [overlay, List.length_zipWith,
      padTo_length _ _ (Nat.le_max_left x.length y.length),
      padTo_length _ _ (Nat.le_max_right x.length y.length), min_self]
  refine ⟨hlen a b, ?_, ?_⟩
  · rw [hlen a b, hlen b a, Nat.max_comm]
  · intro ha
    simp only [overlay, List.length_nil, Nat.max_zero, padTo, Nat.sub_zero,
      Nat.sub_self, List.replicate_zero, List.append_nil, List.nil_append]
    exact zipWith_clip_zero a ha

/-- Witness for C3: a concrete in-range buffer absorbs the empty overlay. -/
theorem overlay_duration_witness :
    overlay [(1 : ℤ), -5] [] = [(1 : ℤ), -5] :=
  (overlay_duration [(1 : ℤ), -5] []).2.2 (by decide)

/-- C2 counterexample: on the concrete silent buffer `[0, 0, 0]` the
loudness-normalization step of the script does not fail with
`DegenerateSignal` as the claim requires — it succeeds, passing the
non-finite gain (`none`, i.e. `target − (−∞)`) on to the gain stage. -/
theorem loudness_silent_no_degenerate_failure :
    loudness_normalize_gain (fun _ => 0) (-30) [0, 0, 0] = .ok none ∧
      loudness_normalize_gain (fun _ => 0) (-30) [0, 0, 0]
        ≠ .error .DegenerateSignal := by
  constructor
  · decide
  · decide

/-- **C2** (corrected): the Loudness Normalizer applies the uniform gain
`target − current` whenever the current loudness is finite; but for a buffer
at the silence floor (measured loudness −∞) it does not fail with
`DegenerateSignal` — the unguarded subtraction succeeds and the non-finite
gain flows into `apply_gain`. -/
theorem loudness_gain_behavior (measure : List ℤ → ℚ) (target : ℚ)
    (b : List ℤ) :
    (isSilent b = false →
        loudness_normalize_gain measure target b
          = .ok (some (target - measure b)))
  ∧ (isSilent b = true →
        loudness_normalize_gain measure target b = .ok none) := by
  constructor
  · intro h
    simp [loudness_normalize_gain, gainFor, dBFS, h]
  · intro h
    simp [loudness_normalize_gain, gainFor, dBFS, h]

/-- Witness for C2's corrected statement, on a non-silent and a silent
one-sample buffer. -/
theorem loudness_gain_behavior_witness :
    loudness_normalize_gain (fun _ => 0) (-30) [(5 : ℤ)] = .ok (some (-30)) ∧
      loudness_normalize_gain (fun _ => 0) (-30) [(0 : ℤ)] = .ok none := by
  constructor
  · exact ((loudness_gain_behavior (fun _ => 0) (-30) [(5 : ℤ)]).1
      (by decide)).trans (by simp)
  · exact (loudness_gain_behavior (fun _ => 0) (-30) [(0 : ℤ)]).2 (by decide)

end Demucs
